import Mathlib

/-!
Shallow embedding of the image-analysis core of `robodoc.py` (RoboDoc v1).

The embedded code is the processing pipeline:
  - `findcontours` (robodoc.py lines 80-140): resize-align the control image,
    grayscale both, absolute difference, blur, binary threshold, external
    contours, fill mask, per-column scan lines subsampled by `linestep`,
    three-panel composite.
  - `save_selected_contours` (lines 142-155): alpha-masked RGBA export.
  - `CropDialog.get_crop_coordinates` (lines 260-277): display-to-original
    coordinate transform with clamping.
  - `InjuryDetectionApp.crop_control` (lines 644-682): minimum-size gate on
    the control crop and the resulting state update.

Images are lists of rows; a color pixel is a BGR triple of channel values
(machine `uint8` values modelled as `Nat`, with the `< 256` bound carried as a
hypothesis where a claim needs it).  OpenCV primitives whose pixel-exact
behaviour is not reproducible in integer arithmetic (the Gaussian blur's
floating-point kernel, the Suzuki-Abe contour tracer, and the rasterisers of
`cv2.drawContours` / `cv2.polylines`) are abstracted as the fields of a
`CVPrims` record: every theorem below is proved for an arbitrary such record,
so it holds in particular for the OpenCV implementations; the few documented
facts a claim needs about them (e.g. that a blur of an all-zero image is
all-zero) appear as explicit hypotheses.  Everything else - grayscale
conversion (OpenCV's exact fixed-point BGR weights), `cv2.absdiff`,
`cv2.threshold`, `cv2.bitwise_and`, the column scan, the subsampling loop,
`np.hstack`, and the coordinate transforms - is translated directly.
-/

/-- Pixel of a 3-channel image in OpenCV's BGR channel order. -/
abbrev Pix := Nat × Nat × Nat

/-- Color image: list of rows of BGR pixels (row-major, like a numpy array). -/
abbrev ColorImage := List (List Pix)

/-- Grayscale image: list of rows of single-channel values. -/
abbrev GrayImage := List (List Nat)

/-- Image point as an (x, y) pair, matching the `(x, y)` tuples built at
robodoc.py line 120. -/
abbrev Pt := Nat × Nat

/-- Contour: a sequence of boundary points (contents are produced by the
abstracted `cv2.findContours` and only consumed by the abstracted
rasterisers). -/
abbrev Contour := List Pt

/-- Element of a list of rows at row `y`, column `x`, with default `d`.
Models 2-D indexing `a[y, x]` into a numpy array. -/
def pixAt (img : List (List α)) (y x : Nat) (d : α) : α :=
  (img.getD y []).getD x d

/-- Number of columns of a row-major image, i.e. `shape[1]` of a numpy
array (length of the first row). -/
def imgWidth (img : List (List α)) : Nat := (img.headD []).length

/-- Predicate: every row of `img` has length `w` (the image is a proper
`h × w` array, as every numpy image is). -/
def Rectangular (img : List (List α)) (w : Nat) : Prop :=
  ∀ r ∈ img, r.length = w

/-- Predicate: every channel value of every pixel fits in a `uint8`. -/
def ImageBounded (img : ColorImage) : Prop :=
  ∀ r ∈ img, ∀ p ∈ r, p.1 < 256 ∧ p.2.1 < 256 ∧ p.2.2 < 256

/-- Grayscale value of one BGR pixel: OpenCV's fixed-point `COLOR_BGR2GRAY`
conversion `(B*1868 + G*9617 + R*4899 + 2^13) >> 14` (the integer form of
`0.114*B + 0.587*G + 0.299*R` used for 8-bit images). -/
def grayPix (p : Pix) : Nat :=
  (p.1 * 1868 + p.2.1 * 9617 + p.2.2 * 4899 + 8192) / 16384

/-- `cv2.cvtColor(img, cv2.COLOR_BGR2GRAY)` (robodoc.py lines 91-92, 112). -/
def grayscaleImage (img : ColorImage) : GrayImage :=
  img.map (fun r => r.map grayPix)

/-- Absolute difference of two channel values (`cv2.absdiff` is exact on
`uint8`). -/
def absdiffPix (a b : Nat) : Nat := max a b - min a b

/-- Pointwise combination of two images (used for `cv2.absdiff` and
`cv2.bitwise_and`, which operate elementwise). -/
def zipPix (f : α → β → γ) (a : List (List α)) (b : List (List β)) :
    List (List γ) :=
  List.zipWith (List.zipWith f) a b

/-- `cv2.absdiff(gray_image2, gray_image1)` (robodoc.py line 95). -/
def absdiffImage (a b : GrayImage) : GrayImage := zipPix absdiffPix a b

/-- Per-channel bitwise AND of two BGR pixels (`cv2.bitwise_and`). -/
def landPix (p q : Pix) : Pix :=
  (Nat.land p.1 q.1, Nat.land p.2.1 q.2.1, Nat.land p.2.2 q.2.2)

/-- `cv2.bitwise_and(original, mask)` (robodoc.py line 111). -/
def andImage (a b : ColorImage) : ColorImage := zipPix landPix a b

/-- `cv2.threshold(blur, threshvalue, 255, cv2.THRESH_BINARY)` (robodoc.py
line 97): a pixel strictly above the threshold becomes 255, any other pixel
becomes 0. -/
def thresholdBinary (t : Nat) (img : GrayImage) : GrayImage :=
  img.map (fun r => r.map (fun p => if t < p then 255 else 0))

/-- Number of foreground (255) pixels of a binary mask. -/
def fgCount (img : GrayImage) : Nat :=
  (img.map (fun r => r.countP (fun p => p == 255))).sum

/-- Image of the same shape as `img` with every pixel black
(`np.zeros_like(original)`, robodoc.py line 107). -/
def zeroImageLike (img : ColorImage) : ColorImage :=
  img.map (fun r => r.map (fun _ => ((0, 0, 0) : Pix)))

/-- One row of `overlayImage`, with `y` the row index and `x0` the column
index of the head of the remaining row. -/
def overlayRow (pts : List Pt) (c : Pix) (y : Nat) : Nat → List Pix → List Pix
  | _, [] => []
  | x, p :: rest =>
      (if (x, y) ∈ pts then c else p) :: overlayRow pts c y (x + 1) rest

/-- Rows of `overlayImage` from row index `y` down. -/
def overlayFrom (pts : List Pt) (c : Pix) : Nat → ColorImage → ColorImage
  | _, [] => []
  | y, row :: rest => overlayRow pts c y 0 row :: overlayFrom pts c (y + 1) rest

/-- Overwrite with color `c` every pixel of `img` whose (x, y) coordinate is
in `pts`.  This is how the drawing calls of robodoc.py (lines 104, 108, 132)
act on an image, with `pts` the set of pixels rasterised by the OpenCV
drawing primitive. -/
def overlayImage (pts : List Pt) (c : Pix) (img : ColorImage) : ColorImage :=
  overlayFrom pts c 0 img

/-- `cv2.resize(image2, (image1.shape[1], image1.shape[0]))` (robodoc.py
line 87), modelled as coordinate resampling `dst[y, x] =
src[y*h/newH, x*w/newW]`.  OpenCV's default bilinear interpolation differs
from this on proper rescalings, but coincides with it when the destination
size equals the source size (scale 1 samples each source pixel exactly),
which is the only case any claim below evaluates. -/
def resizeImg (img : ColorImage) (newW newH : Nat) : ColorImage :=
  (List.range newH).map (fun y =>
    (List.range newW).map (fun x =>
      pixAt img (y * img.length / newH) (x * imgWidth img / newW) (0, 0, 0)))

/-- Keep every `k`-th element of a list starting with the first: the loop
`for i in range(0, len(line_coordinates_np), max(1, linestep))` of robodoc.py
lines 125-127 (its `if i < len` guard is vacuous). -/
def everyNth (k : Nat) : List α → List α
  | [] => []
  | a :: rest => a :: everyNth k (rest.drop (k - 1))
  termination_by l => l.length
  decreasing_by simp [List.length_drop]; omega

/-- Abstracted OpenCV primitives used by the pipeline.  Each field stands for
one library call whose pixel-exact output is not reproducible in exact
integer arithmetic; all theorems quantify over an arbitrary record, so they
hold for the real OpenCV functions in particular. -/
structure CVPrims where
  /-- `cv2.GaussianBlur(difference, (19, 19), cv2.BORDER_DEFAULT)`
  (robodoc.py line 96). -/
  blur : GrayImage → GrayImage
  /-- `cv2.findContours(thresh, cv2.RETR_EXTERNAL, cv2.CHAIN_APPROX_NONE)`
  (robodoc.py line 100), first component of the result. -/
  findContoursExt : GrayImage → List Contour
  /-- Pixels painted by `cv2.drawContours(img, contours, -1, (0,0,0), 5)`
  (robodoc.py line 104): the contour outlines at thickness 5. -/
  outlinePix : List Contour → List Pt
  /-- Pixels painted by `cv2.drawContours(img, contours, -1, (255,255,255),
  thickness=cv2.FILLED)` (robodoc.py lines 108 and 145): the filled contour
  interiors. -/
  fillPix : List Contour → List Pt
  /-- Pixels painted by `cv2.polylines(img, lines, isClosed=False,
  color=(255,255,255), thickness=2)` (robodoc.py line 132). -/
  polylinePix : List (List Pt) → List Pt

/-- Resized control image: `image2 = cv2.resize(image2, (image1.shape[1],
image1.shape[0]))` (robodoc.py line 87). -/
def resizedControl (image1 image2 : ColorImage) : ColorImage :=
  resizeImg image2 (imgWidth image1) image1.length

/-- Difference map `cv2.absdiff(gray_image2, gray_image1)` after grayscale
conversion of both images (robodoc.py lines 91-95). -/
def diffMap (image1 image2 : ColorImage) : GrayImage :=
  absdiffImage (grayscaleImage (resizedControl image1 image2))
    (grayscaleImage image1)

/-- Binary segmentation mask `thresh` of robodoc.py line 97: the blurred
difference map thresholded at `threshvalue`. -/
def segMask (P : CVPrims) (image1 image2 : ColorImage) (threshvalue : Nat) :
    GrayImage :=
  thresholdBinary threshvalue (P.blur (diffMap image1 image2))

/-- External contour set of robodoc.py line 100. -/
def contoursOf (P : CVPrims) (image1 image2 : ColorImage) (threshvalue : Nat) :
    List Contour :=
  P.findContoursExt (segMask P image1 image2 threshvalue)

/-- Second panel `contoured` (robodoc.py lines 103-104): the subject image
with the contour outlines drawn in black. -/
def contouredOf (P : CVPrims) (image1 image2 : ColorImage) (threshvalue : Nat) :
    ColorImage :=
  overlayImage (P.outlinePix (contoursOf P image1 image2 threshvalue))
    (0, 0, 0) image1

/-- Contour fill mask `mask` (robodoc.py lines 107-108): white filled contour
interiors on a black image of the subject's shape. -/
def fillMaskOf (P : CVPrims) (image1 image2 : ColorImage) (threshvalue : Nat) :
    ColorImage :=
  overlayImage (P.fillPix (contoursOf P image1 image2 threshvalue))
    (255, 255, 255) (zeroImageLike image1)

/-- Masked subject in grayscale, `result_gray` (robodoc.py lines 111-112):
grayscale of `cv2.bitwise_and(original, mask)`. -/
def resultGray (original mask : ColorImage) : GrayImage :=
  grayscaleImage (andImage original mask)

/-- The `result_gray` value of a full `findcontours` run. -/
def resultGrayOf (P : CVPrims) (image1 image2 : ColorImage)
    (threshvalue : Nat) : GrayImage :=
  resultGray image1 (fillMaskOf P image1 image2 threshvalue)

/-- Candidate scan lines `line_coordinates` (robodoc.py lines 115-120): for
each column `x` of `result_gray` in order, the rows `y` with a nonzero value
in that column; every column having at least one such row contributes the
line of its points `(x, y)`. -/
def lineCoordinates (g : GrayImage) : List (List Pt) :=
  (List.range (imgWidth g)).filterMap (fun x =>
    let ys := (List.range g.length).filter (fun y => decide (0 < pixAt g y x 0))
    if ys = [] then none else some (ys.map (fun y => ((x, y) : Pt))))

/-- Subsampled scan lines `lines` (robodoc.py lines 123-127): every
`max 1 linestep`-th candidate line in column order. -/
def scanLinesOf (P : CVPrims) (image1 image2 : ColorImage)
    (threshvalue linestep : Nat) : List (List Pt) :=
  everyNth (max 1 linestep)
    (lineCoordinates (resultGrayOf P image1 image2 threshvalue))

/-- Third panel `lined` (robodoc.py lines 130-132): the second panel with the
subsampled scan lines drawn in white (the drawing call is skipped when there
are no lines). -/
def linedOf (P : CVPrims) (image1 image2 : ColorImage)
    (threshvalue linestep : Nat) : ColorImage :=
  let ls := scanLinesOf P image1 image2 threshvalue linestep
  if ls.isEmpty then contouredOf P image1 image2 threshvalue
  else overlayImage (P.polylinePix ls) (255, 255, 255)
    (contouredOf P image1 image2 threshvalue)

/-- Horizontal concatenation of three images of equal height
(`np.hstack([original, contoured, lined])`, robodoc.py line 135). -/
def hstack3 (a b c : List (List α)) : List (List α) :=
  List.zipWith (fun r s => r ++ s) (List.zipWith (fun r s => r ++ s) a b) c

/-- The core pipeline `findcontours(image1, image2, threshvalue, linestep)`
(robodoc.py lines 80-140): returns the three-panel composite and the full
contour set. -/
def findcontours (P : CVPrims) (image1 image2 : ColorImage)
    (threshvalue linestep : Nat) : ColorImage × List Contour :=
  (hstack3 image1 (contouredOf P image1 image2 threshvalue)
      (linedOf P image1 image2 threshvalue linestep),
   contoursOf P image1 image2 threshvalue)

/-- RGBA pixel in OpenCV's (B, G, R, A) channel order, as produced by
`cv2.merge([b, g, r, alpha])`. -/
abbrev Pix4 := Nat × Nat × Nat × Nat

/-- `cv2.merge([b, g, r, alpha])` after `cv2.split(result)` (robodoc.py
lines 149-151): attach the alpha plane to the color planes pointwise. -/
def mergeBGRA (result : ColorImage) (alpha : GrayImage) : List (List Pix4) :=
  zipPix (fun (p : Pix) (a : Nat) => ((p.1, p.2.1, p.2.2, a) : Pix4))
    result alpha

/-- Fill mask built inside `save_selected_contours` (robodoc.py
lines 144-145): white filled contour interiors on `np.zeros(image.shape)`. -/
def exportMask (P : CVPrims) (image : ColorImage) (contours : List Contour) :
    ColorImage :=
  overlayImage (P.fillPix contours) (255, 255, 255) (zeroImageLike image)

/-- The module-level exporter `save_selected_contours(image, contours,
filepath)` (robodoc.py lines 142-155), up to the final `cv2.imwrite`: the
RGBA image it writes.  Alpha is `cv2.cvtColor(mask, cv2.COLOR_BGR2GRAY)` of
the fill mask, the color planes come from `cv2.bitwise_and(image, mask)`. -/
def save_selected_contours (P : CVPrims) (image : ColorImage)
    (contours : List Contour) : List (List Pix4) :=
  let mask := exportMask P image contours
  let result := andImage image mask
  let alpha := grayscaleImage mask
  mergeBGRA result alpha

/-- The app-level export handler `InjuryDetectionApp.save_selected_contours`
(robodoc.py lines 751-765): if the injury image or the contour set is `None`
it returns silently and writes nothing (`none`); otherwise it calls the
module-level exporter and writes its RGBA image. -/
def app_save_selected_contours (P : CVPrims) (injury_img : Option ColorImage)
    (contours : Option (List Contour)) : Option (List (List Pix4)) :=
  match injury_img, contours with
  | some img, some cs => some (save_selected_contours P img cs)
  | _, _ => none

/-- `CropDialog.get_crop_coordinates` (robodoc.py lines 260-277): transform a
display-space rubber-band rectangle to original-image space.  Each coordinate
and dimension is multiplied by its axis scale factor
`original_dim / display_dim` and truncated (Python's `int()` of the
nonnegative float product, i.e. the floor, is the exact rational floor
modelled here by natural division); then `x`, `y` are clamped to
`original_dim - 1` and `w`, `h` are clamped so the rectangle stays inside the
original image.  A missing or empty rubber-band rectangle yields `none`. -/
def get_crop_coordinates (crop_rect : Option (Nat × Nat × Nat × Nat))
    (origW origH dispW dispH : Nat) : Option (Nat × Nat × Nat × Nat) :=
  match crop_rect with
  | none => none
  | some (rx, ry, rw, rh) =>
    if rw = 0 ∨ rh = 0 then none
    else
      let x := min (rx * origW / dispW) (origW - 1)
      let y := min (ry * origH / dispH) (origH - 1)
      let w := min (rw * origW / dispW) (origW - x)
      let h := min (rh * origH / dispH) (origH - y)
      some (x, y, w, h)

/-- Numpy slice `img[y:y+h, x:x+w]` (robodoc.py line 665). -/
def cropImage (img : ColorImage) (x y w h : Nat) : ColorImage :=
  ((img.drop y).take h).map (fun r => (r.drop x).take w)

/-- Total number of pixels of an image (`ndarray.size` up to the constant
channel factor; it is zero exactly when the numpy `size` is zero). -/
def imgSize (img : ColorImage) : Nat := (img.map List.length).sum

/-- The mutable fields of `InjuryDetectionApp` that `crop_control` reads or
writes. -/
structure AppState where
  injury_img : Option ColorImage
  cropped_control : Option ColorImage
deriving Repr, DecidableEq

/-- Outcome of one `crop_control` invocation: which of the early-return
branches was taken, or acceptance. -/
inductive CropOutcome where
  | noImage
  | noSelection
  | tooSmall
  | emptyCrop
  | accepted
deriving Repr, DecidableEq

/-- `InjuryDetectionApp.crop_control` (robodoc.py lines 644-682), given the
already-transformed crop coordinates `coords` returned by
`get_crop_coordinates`: a `None` selection and a selection with `w <= 10 or
h <= 10` are rejected with a warning and leave the state unchanged; otherwise
the control region is cropped out of the injury image and stored (unless the
crop is empty, which is also rejected unchanged). -/
def crop_control (st : AppState) (coords : Option (Nat × Nat × Nat × Nat)) :
    AppState × CropOutcome :=
  match st.injury_img with
  | none => (st, CropOutcome.noImage)
  | some img =>
    match coords with
    | none => (st, CropOutcome.noSelection)
    | some (x, y, w, h) =>
      if w ≤ 10 ∨ h ≤ 10 then (st, CropOutcome.tooSmall)
      else
        let cropped := cropImage img x y w h
        if imgSize cropped = 0 then (st, CropOutcome.emptyCrop)
        else ({ st with cropped_control := some cropped }, CropOutcome.accepted)

/-- Candidate scan lines as the specification describes them, built from the
fill mask alone.  Modelled from the spec: "for every pixel column in the
masked region, collect the set of foreground row-indices in that column; each
non-empty column becomes one candidate vertical line (a sequence of points,
one per foreground row, at that column's x)". -/
def specCandidateLines (mask : ColorImage) : List (List Pt) :=
  (List.range (imgWidth mask)).filterMap (fun x =>
    let ys := (List.range mask.length).filter
      (fun y => decide (pixAt mask y x (0, 0, 0) = ((255, 255, 255) : Pix)))
    if ys = [] then none else some (ys.map (fun y => ((x, y) : Pt))))

/-- Candidate scan lines as the code actually computes them, written directly
as a function of the subject image and the fill mask: a row contributes a
point only when the mask is foreground there AND the subject's grayscale
value at that pixel is nonzero. -/
def codeCandidateLines (original mask : ColorImage) : List (List Pt) :=
  (List.range (imgWidth original)).filterMap (fun x =>
    let ys := (List.range original.length).filter (fun y =>
      decide (pixAt mask y x (0, 0, 0) = ((255, 255, 255) : Pix) ∧
        0 < grayPix (pixAt original y x (0, 0, 0))))
    if ys = [] then none else some (ys.map (fun y => ((x, y) : Pt))))

/-- Trivial instantiation of the abstracted OpenCV primitives, used to
discharge hypotheses in concrete evaluations: identity blur, no contours, no
rasterised pixels. -/
def idPrims : CVPrims :=
  { blur := id
    findContoursExt := fun _ => []
    outlinePix := fun _ => []
    fillPix := fun _ => []
    polylinePix := fun _ => [] }

/-- Instantiation of the abstracted OpenCV primitives whose fill rasteriser
always paints the single pixel (0, 0), giving a 1-pixel foreground fill mask
on 1x1 images. -/
def onePrims : CVPrims :=
  { blur := id
    findContoursExt := fun _ => []
    outlinePix := fun _ => []
    fillPix := fun _ => [((0, 0) : Pt)]
    polylinePix := fun _ => [] }

/-! Helper lemmas about list indexing and the pointwise image operations. -/

theorem getD_cons_succ (a : α) (l : List α) (i : Nat) (d : α) :
    (a :: l).getD (i + 1) d = l.getD i d := rfl

theorem getD_map (f : α → β) (l : List α) (d : α) (i : Nat) :
    (l.map f).getD i (f d) = f (l.getD i d) := by
  induction l generalizing i with
  | nil => simp [List.getD]
  | cons a l ih =>
    cases i with
    | zero => rfl
    | succ i => simpa using ih i

theorem getD_zipWith (f : α → β → γ) (a : List α) (b : List β)
    (da : α) (db : β) (i : Nat) (hlen : a.length = b.length) :
    (List.zipWith f a b).getD i (f da db) = f (a.getD i da) (b.getD i db) := by
  induction a generalizing b i with
  | nil =>
    cases b with
    | nil => simp [List.getD]
    | cons y b => simp at hlen
  | cons x a ih =>
    cases b with
    | nil => simp at hlen
    | cons y b =>
      cases i with
      | zero => rfl
      | succ i =>
        simp only [List.zipWith_cons_cons, getD_cons_succ]
        exact ih b i (by simpa using hlen)

theorem getD_mem (l : List α) (d : α) (i : Nat) (h : i < l.length) :
    l.getD i d ∈ l := by
  induction l generalizing i with
  | nil => simp at h
  | cons a l ih =>
    cases i with
    | zero => simp [List.getD]
    | succ i =>
      simp only [getD_cons_succ]
      exact List.mem_cons_of_mem a (ih i (by simpa using h))

theorem range_map_getD (l : List α) (d : α) :
    (List.range l.length).map (fun i => l.getD i d) = l := by
  induction l with
  | nil => simp
  | cons a l ih =>
    simp only [List.length_cons, List.range_succ_eq_map, List.map_cons,
      List.map_map]
    exact congrArg (a :: ·) ih

theorem zipWith_self_eq_replicate (f : α → α → β) (c : β) (l : List α)
    (hf : ∀ a ∈ l, f a a = c) :
    List.zipWith f l l = List.replicate l.length c := by
  induction l with
  | nil => rfl
  | cons a l ih =>
    simp only [List.zipWith_cons_cons, List.length_cons, List.replicate_succ]
    rw [hf a (List.mem_cons_self a l),
      ih (fun b hb => hf b (List.mem_cons_of_mem a hb))]

theorem overlayRow_length (pts : List Pt) (c : Pix) (y x0 : Nat)
    (row : List Pix) : (overlayRow pts c y x0 row).length = row.length := by
  induction row generalizing x0 with
  | nil => rfl
  | cons p rest ih => simp [overlayRow, ih]

theorem overlayFrom_length (pts : List Pt) (c : Pix) (y0 : Nat)
    (img : ColorImage) : (overlayFrom pts c y0 img).length = img.length := by
  induction img generalizing y0 with
  | nil => rfl
  | cons row rest ih => simp [overlayFrom, ih]

theorem overlayImage_length (pts : List Pt) (c : Pix) (img : ColorImage) :
    (overlayImage pts c img).length = img.length :=
  overlayFrom_length pts c 0 img

theorem overlayImage_rect (pts : List Pt) (c : Pix) (img : ColorImage)
    (w : Nat) (h : Rectangular img w) :
    Rectangular (overlayImage pts c img) w := by
  unfold overlayImage
  generalize 0 = y0
  induction img generalizing y0 with
  | nil => intro r hr; simp [overlayFrom] at hr
  | cons row rest ih =>
    intro r hr
    simp only [overlayFrom, List.mem_cons] at hr
    rcases hr with hr | hr
    · rw [hr, overlayRow_length]
      exact h row (List.mem_cons_self row rest)
    · exact ih (fun s hs => h s (List.mem_cons_of_mem row hs)) (y0 + 1) r hr

theorem overlayRow_getD (pts : List Pt) (c : Pix) (y : Nat) (row : List Pix)
    (x0 x : Nat) (d : Pix) (hx : x < row.length) :
    (overlayRow pts c y x0 row).getD x d =
      if (x0 + x, y) ∈ pts then c else row.getD x d := by
  induction row generalizing x0 x with
  | nil => simp at hx
  | cons p rest ih =>
    cases x with
    | zero => simp [overlayRow, List.getD]
    | succ x =>
      simp only [overlayRow, getD_cons_succ]
      rw [ih (x0 + 1) x (by simpa using hx)]
      have : x0 + 1 + x = x0 + (x + 1) := by omega
      rw [this]

theorem overlayFrom_getD (pts : List Pt) (c : Pix) (img : ColorImage)
    (y0 y : Nat) (hy : y < img.length) :
    (overlayFrom pts c y0 img).getD y [] =
      overlayRow pts c (y0 + y) 0 (img.getD y []) := by
  induction img generalizing y0 y with
  | nil => simp at hy
  | cons row rest ih =>
    cases y with
    | zero => simp [overlayFrom, List.getD]
    | succ y =>
      simp only [overlayFrom, getD_cons_succ]
      rw [ih y0.succ y (by simpa using hy)]
      have : y0 + 1 + y = y0 + (y + 1) := by omega
      rw [this]

theorem overlayImage_pixAt (pts : List Pt) (c : Pix) (img : ColorImage)
    (y x : Nat) (d : Pix) (hy : y < img.length)
    (hx : x < (img.getD y []).length) :
    pixAt (overlayImage pts c img) y x d =
      if (x, y) ∈ pts then c else pixAt img y x d := by
  unfold pixAt overlayImage
  rw [overlayFrom_getD pts c img 0 y hy, overlayRow_getD pts c (0 + y)
    (img.getD y []) 0 x d hx]
  simp

theorem pixAt_map (f : α → β) (img : List (List α)) (y x : Nat) (d : α) :
    pixAt (img.map (fun r => r.map f)) y x (f d) = f (pixAt img y x d) := by
  unfold pixAt
  have h0 : (img.map (fun r => r.map f)).getD y ([].map f) =
      (img.getD y []).map f := getD_map (fun r => r.map f) img [] y
  simp only [List.map_nil] at h0
  rw [h0, getD_map f (img.getD y []) d x]

theorem pixAt_zipPix (f : α → β → γ) (a : List (List α)) (b : List (List β))
    (da : α) (db : β) (y x : Nat) (hlen : a.length = b.length)
    (hrow : (a.getD y []).length = (b.getD y []).length) :
    pixAt (zipPix f a b) y x (f da db) =
      f (pixAt a y x da) (pixAt b y x db) := by
  unfold pixAt zipPix
  have h0 : (List.zipWith (List.zipWith f) a b).getD y (List.zipWith f [] []) =
      List.zipWith f (a.getD y []) (b.getD y []) :=
    getD_zipWith (List.zipWith f) a b [] [] y hlen
  simp only [List.zipWith_nil_right] at h0
  rw [h0, getD_zipWith f (a.getD y []) (b.getD y []) da db x hrow]

set_option maxRecDepth 4096 in
theorem land_of_lt_256 : ∀ b < 256, Nat.land b 255 = b := by decide

theorem landPix_white (p : Pix) (hb : p.1 < 256) (hg : p.2.1 < 256)
    (hr : p.2.2 < 256) : landPix p (255, 255, 255) = p := by
  obtain ⟨b, g, r⟩ := p
  simp only [landPix]
  simp only at hb hg hr
  rw [land_of_lt_256 b hb, land_of_lt_256 g hg, land_of_lt_256 r hr]

theorem landPix_black (p : Pix) : landPix p (0, 0, 0) = (0, 0, 0) := by
  obtain ⟨b, g, r⟩ := p
  simp only [landPix]
  have h : ∀ n : Nat, Nat.land n 0 = 0 := fun n => Nat.and_zero n
  rw [h b, h g, h r]

theorem grayPix_white : grayPix (255, 255, 255) = 255 := by decide

theorem grayPix_black : grayPix (0, 0, 0) = 0 := by decide

theorem everyNth_length_aux (k : Nat) (hk : 1 ≤ k) :
    ∀ (n : Nat) (l : List α), l.length ≤ n →
      (everyNth k l).length = (l.length + k - 1) / k := by
  intro n
  induction n with
  | zero =>
    intro l hl
    have h0 : l = [] := List.eq_nil_of_length_eq_zero (Nat.le_zero.mp hl)
    subst h0
    simp only [everyNth, List.length_nil, Nat.zero_add]
    exact (Nat.div_eq_of_lt (by omega)).symm
  | succ n ih =>
    intro l hl
    cases l with
    | nil =>
      simp only [everyNth, List.length_nil, Nat.zero_add]
      exact (Nat.div_eq_of_lt (by omega)).symm
    | cons a rest =>
      have hl2 : rest.length ≤ n := by
        simp only [List.length_cons] at hl; omega
      simp only [everyNth, List.length_cons]
      rw [ih (rest.drop (k - 1)) (by simp only [List.length_drop]; omega)]
      simp only [List.length_drop]
      rcases le_or_lt (k - 1) rest.length with h | h
      · have h1 : rest.length - (k - 1) + k - 1 = rest.length := by omega
        have h2 : rest.length + 1 + k - 1 = rest.length + k := by omega
        rw [h1, h2, Nat.add_div_right rest.length hk]
      · have h1 : rest.length - (k - 1) = 0 := by omega
        have h2 : rest.length + 1 + k - 1 = rest.length + k := by omega
        rw [h1, h2]
        have h3 : (0 + k - 1) / k = 0 := Nat.div_eq_of_lt (by omega)
        have h4 : (rest.length + k) / k = 1 := by
          rw [Nat.add_div_right rest.length hk, Nat.div_eq_of_lt (by omega)]
        omega

theorem everyNth_length (k : Nat) (hk : 1 ≤ k) (l : List α) :
    (everyNth k l).length = (l.length + k - 1) / k :=
  everyNth_length_aux k hk l.length l (Nat.le_refl _)

/-- Claim C1: with both images fixed, the number of scan lines drawn into the
third composite panel at line-step `k` with `1 ≤ k ≤ 50` is
`ceil(number_of_nonempty_columns / k)` (in natural-number arithmetic,
`(n + k - 1) / k` of the number `n` of columns contributing a candidate
line); in particular `k = 1` draws one line per nonempty column. -/
theorem scanline_count_eq_ceil (P : CVPrims) (image1 image2 : ColorImage)
    (t k : Nat) (hk1 : 1 ≤ k) (hk50 : k ≤ 50) :
    (scanLinesOf P image1 image2 t k).length =
      ((lineCoordinates (resultGrayOf P image1 image2 t)).length + k - 1) / k ∧
    (k = 1 → (scanLinesOf P image1 image2 t k).length =
      (lineCoordinates (resultGrayOf P image1 image2 t)).length) := by
  have hmax : max 1 k = k := Nat.max_eq_right hk1
  constructor
  · unfold scanLinesOf
    rw [hmax, everyNth_length k hk1]
  · intro h1
    subst h1
    unfold scanLinesOf
    rw [hmax, everyNth_length 1 (Nat.le_refl 1)]
    simp

/-- Witness for C1: a concrete run (1x1 white subject and control, fill
rasteriser painting the single pixel) has one candidate line; at `k = 2` the
drawn-line count is `ceil(1 / 2) = 1`. -/
theorem scanline_count_eq_ceil_witness :
    (scanLinesOf onePrims [[(255, 255, 255)]] [[(255, 255, 255)]] 50 2).length =
      ((lineCoordinates (resultGrayOf onePrims [[(255, 255, 255)]]
        [[(255, 255, 255)]] 50)).length + 2 - 1) / 2 ∧
    (2 = 1 → (scanLinesOf onePrims [[(255, 255, 255)]] [[(255, 255, 255)]]
        50 2).length =
      (lineCoordinates (resultGrayOf onePrims [[(255, 255, 255)]]
        [[(255, 255, 255)]] 50)).length) :=
  scanline_count_eq_ceil onePrims [[(255, 255, 255)]] [[(255, 255, 255)]] 50 2
    (by decide) (by decide)

theorem sum_map_le_sum_map (l : List α) (f g : α → Nat)
    (h : ∀ a ∈ l, f a ≤ g a) : (l.map f).sum ≤ (l.map g).sum := by
  induction l with
  | nil => simp
  | cons a l ih =>
    simp only [List.map_cons, List.sum_cons]
    exact Nat.add_le_add (h a (List.mem_cons_self a l))
      (ih (fun b hb => h b (List.mem_cons_of_mem a hb)))

theorem fgCount_threshold_antitone (g : GrayImage) (t1 t2 : Nat)
    (h12 : t1 ≤ t2) :
    fgCount (thresholdBinary t2 g) ≤ fgCount (thresholdBinary t1 g) := by
  unfold fgCount thresholdBinary
  simp only [List.map_map]
  apply sum_map_le_sum_map
  intro r _
  simp only [Function.comp]
  rw [List.countP_map, List.countP_map]
  apply List.countP_mono_left
  intro p _
  simp only [Function.comp]
  intro hp
  by_cases h2 : t2 < p
  · have h1 : t1 < p := Nat.lt_of_le_of_lt h12 h2
    simp [h1]
  · simp [h2] at hp

/-- Claim C2: with both images fixed, the number of foreground (255) pixels
of the binary segmentation mask is non-increasing in the threshold: for
thresholds `t1 ≤ t2` in the valid range 3..190, the mask at `t2` has at most
as many foreground pixels as the mask at `t1`.  The statement quantifies over
every blur function (field of `P`), so it covers the pipeline's Gaussian
blur. -/
theorem fgCount_segMask_antitone (P : CVPrims) (image1 image2 : ColorImage)
    (t1 t2 : Nat) (h3 : 3 ≤ t1) (h12 : t1 ≤ t2) (h190 : t2 ≤ 190) :
    fgCount (segMask P image1 image2 t2) ≤
      fgCount (segMask P image1 image2 t1) := by
  unfold segMask
  exact fgCount_threshold_antitone (P.blur (diffMap image1 image2)) t1 t2 h12

/-- Witness for C2 at a concrete pair of 1x1 images and thresholds 3 and
190. -/
theorem fgCount_segMask_antitone_witness :
    fgCount (segMask idPrims [[(200, 10, 30)]] [[(0, 0, 0)]] 190) ≤
      fgCount (segMask idPrims [[(200, 10, 30)]] [[(0, 0, 0)]] 3) :=
  fgCount_segMask_antitone idPrims [[(200, 10, 30)]] [[(0, 0, 0)]] 3 190
    (by decide) (by decide) (by decide)

/-- Claim C10: with subject image, control image and threshold fixed, the
contour set returned by `findcontours` is identical for every pair of values
of the line-step parameter: `linestep` influences only the third composite
panel, never the returned contours. -/
theorem contours_independent_of_linestep (P : CVPrims)
    (image1 image2 : ColorImage) (t k1 k2 : Nat) :
    (findcontours P image1 image2 t k1).2 =
      (findcontours P image1 image2 t k2).2 := rfl

/-- Claim C8: the crop-region transform multiplies each display coordinate
and dimension by its axis scale factor `original_dim / display_dim` and then
clamps `x`, `y` into `[0, original_dim - 1]` and `w`, `h` so that
`x + w ≤ original_width` and `y + h ≤ original_height`; in particular, for
original size (1000, 500) and display size (500, 250), the display rectangle
(100, 50, 100, 50) maps to the original-space rectangle
(200, 100, 200, 100). -/
theorem crop_transform_spec (rx ry rw rh origW origH dispW dispH : Nat)
    (hW : 0 < origW) (hH : 0 < origH) :
    (∀ x y w h,
      get_crop_coordinates (some (rx, ry, rw, rh)) origW origH dispW dispH =
        some (x, y, w, h) →
      x = min (rx * origW / dispW) (origW - 1) ∧
      y = min (ry * origH / dispH) (origH - 1) ∧
      w = min (rw * origW / dispW) (origW - x) ∧
      h = min (rh * origH / dispH) (origH - y) ∧
      x ≤ origW - 1 ∧ y ≤ origH - 1 ∧ x + w ≤ origW ∧ y + h ≤ origH) ∧
    get_crop_coordinates (some (100, 50, 100, 50)) 1000 500 500 250 =
      some (200, 100, 200, 100) := by
  constructor
  · intro x y w h hres
    unfold get_crop_coordinates at hres
    by_cases hz : rw = 0 ∨ rh = 0
    · simp [hz] at hres
    · simp only [hz, if_false, Option.some.injEq, Prod.mk.injEq] at hres
      obtain ⟨hx, hy, hw, hh⟩ := hres
      subst hx; subst hy; subst hw; subst hh
      refine ⟨rfl, rfl, rfl, rfl, Nat.min_le_right _ _, Nat.min_le_right _ _,
        ?_, ?_⟩
      · have h1 : min (rw * origW / dispW)
            (origW - min (rx * origW / dispW) (origW - 1)) ≤
            origW - min (rx * origW / dispW) (origW - 1) :=
          Nat.min_le_right _ _
        have h2 : min (rx * origW / dispW) (origW - 1) ≤ origW - 1 :=
          Nat.min_le_right _ _
        omega
      · have h1 : min (rh * origH / dispH)
            (origH - min (ry * origH / dispH) (origH - 1)) ≤
            origH - min (ry * origH / dispH) (origH - 1) :=
          Nat.min_le_right _ _
        have h2 : min (ry * origH / dispH) (origH - 1) ≤ origH - 1 :=
          Nat.min_le_right _ _
        omega
  · decide

/-- Witness for C8: the concrete mapping of the claim's example rectangle,
obtained from the theorem at the example's dimensions. -/
theorem crop_transform_spec_witness :
    get_crop_coordinates (some (100, 50, 100, 50)) 1000 500 500 250 =
      some (200, 100, 200, 100) :=
  (crop_transform_spec 100 50 100 50 1000 500 500 250 (by decide)
    (by decide)).2

theorem imgSize_crop_pos (img : ColorImage) (wImg x y : Nat)
    (hrect : Rectangular img wImg) (hx : x + 11 ≤ wImg)
    (hy : y + 11 ≤ img.length) : imgSize (cropImage img x y 11 11) ≠ 0 := by
  unfold imgSize cropImage
  have hlen : ((img.drop y).take 11).length = 11 := by
    simp only [List.length_take, List.length_drop]
    omega
  obtain ⟨r, rest, hcons⟩ : ∃ r rest, (img.drop y).take 11 = r :: rest := by
    cases h : (img.drop y).take 11 with
    | nil => rw [h] at hlen; simp at hlen
    | cons r rest => exact ⟨r, rest, rfl⟩
  have hrmem : r ∈ img := by
    have h1 : r ∈ (img.drop y).take 11 := by rw [hcons]; exact List.mem_cons_self r rest
    exact List.mem_of_mem_drop (List.mem_of_mem_take h1)
  have hrlen : r.length = wImg := hrect r hrmem
  rw [hcons]
  simp only [List.map_cons, List.map_map, List.sum_cons]
  have h2 : ((r.drop x).take 11).length = 11 := by
    simp only [List.length_take, List.length_drop]
    omega
  simp only [Function.comp, List.length_take, List.length_drop]
  omega

/-- Claim C9: a transformed control crop rectangle with original-space width
at most 10 or height at most 10 is rejected as too small, storing no control
region and leaving the whole application state unchanged, while a rectangle
of width 11 and height 11 (inside the image) is accepted and its crop is
stored; in particular width 10 with height 20 is rejected.  The rejected
branch is the `tooSmall` outcome, the code's `RegionTooSmallError` signal (a
warning dialog plus early return at robodoc.py lines 660-662). -/
theorem crop_control_size_gate (st : AppState) (img : ColorImage)
    (wImg : Nat) (hst : st.injury_img = some img)
    (hrect : Rectangular img wImg) :
    (∀ x y w h, w ≤ 10 ∨ h ≤ 10 →
      crop_control st (some (x, y, w, h)) = (st, CropOutcome.tooSmall)) ∧
    (∀ x y, crop_control st (some (x, y, 10, 20)) =
      (st, CropOutcome.tooSmall)) ∧
    (∀ x y, x + 11 ≤ wImg → y + 11 ≤ img.length →
      crop_control st (some (x, y, 11, 11)) =
        ({ st with cropped_control := some (cropImage img x y 11 11) },
         CropOutcome.accepted)) := by
  refine ⟨?_, ?_, ?_⟩
  · intro x y w h hsmall
    unfold crop_control
    rw [hst]
    simp only [hsmall, if_true]
  · intro x y
    unfold crop_control
    rw [hst]
    simp
  · intro x y hx hy
    unfold crop_control
    rw [hst]
    have hns : ¬ ((11 : Nat) ≤ 10 ∨ (11 : Nat) ≤ 10) := by omega
    simp only [hns, if_false]
    simp only [imgSize_crop_pos img wImg x y hrect hx hy, if_false]

/-- Witness for C9 on a concrete 12x12 image: the rectangle (0, 0, 10, 20)
is rejected unchanged and (0, 0, 11, 11) is accepted. -/
theorem crop_control_size_gate_witness :
    (crop_control
        { injury_img := some (List.replicate 12 (List.replicate 12
            ((7, 7, 7) : Pix))), cropped_control := none }
        (some (0, 0, 10, 20)) =
      ({ injury_img := some (List.replicate 12 (List.replicate 12
            ((7, 7, 7) : Pix))), cropped_control := none },
       CropOutcome.tooSmall)) ∧
    (crop_control
        { injury_img := some (List.replicate 12 (List.replicate 12
            ((7, 7, 7) : Pix))), cropped_control := none }
        (some (0, 0, 11, 11)) =
      ({ injury_img := some (List.replicate 12 (List.replicate 12
            ((7, 7, 7) : Pix))),
         cropped_control := some (cropImage (List.replicate 12
            (List.replicate 12 ((7, 7, 7) : Pix))) 0 0 11 11) },
       CropOutcome.accepted)) := by
  have h := crop_control_size_gate
    { injury_img := some (List.replicate 12 (List.replicate 12
        ((7, 7, 7) : Pix))), cropped_control := none }
    (List.replicate 12 (List.replicate 12 ((7, 7, 7) : Pix))) 12 rfl
    (by intro r hr; simp at hr; simp [hr])
  exact ⟨h.2.1 0 0, h.2.2 0 0 (by decide) (by simp)⟩

theorem resizeImg_self (img : ColorImage) (w : Nat) (hrect : Rectangular img w)
    (hh : 0 < img.length) (hw : 0 < w) :
    resizeImg img w img.length = img := by
  unfold resizeImg
  have hwidth : imgWidth img = w := by
    unfold imgWidth
    cases img with
    | nil => simp at hh
    | cons r rest =>
      simp only [List.headD_cons]
      exact hrect r (List.mem_cons_self r rest)
  rw [hwidth]
  have houter : ∀ y, y * img.length / img.length = y := fun y =>
    Nat.mul_div_cancel y hh
  have hinner : ∀ x, x * w / w = x := fun x => Nat.mul_div_cancel x hw
  have hrow : ∀ y, y < img.length →
      (List.range w).map (fun x => pixAt img (y * img.length / img.length)
        (x * w / w) (0, 0, 0)) = img.getD y [] := by
    intro y hy
    have hlen : (img.getD y []).length = w :=
      hrect (img.getD y []) (getD_mem img [] y hy)
    calc (List.range w).map (fun x => pixAt img (y * img.length / img.length)
          (x * w / w) (0, 0, 0))
        = (List.range w).map (fun x => (img.getD y []).getD x (0, 0, 0)) := by
          apply List.map_congr_left
          intro x _
          unfold pixAt
          rw [houter y, hinner x]
      _ = img.getD y [] := by
          rw [← hlen]
          exact range_map_getD (img.getD y []) (0, 0, 0)
  calc (List.range img.length).map (fun y => (List.range w).map
        (fun x => pixAt img (y * img.length / img.length) (x * w / w)
          (0, 0, 0)))
      = (List.range img.length).map (fun y => img.getD y []) := by
        apply List.map_congr_left
        intro y hy
        exact hrow y (List.mem_range.mp hy)
    _ = img := range_map_getD img []


theorem diffMap_self (img : ColorImage) (w : Nat) (hrect : Rectangular img w)
    (hh : 0 < img.length) (hw : 0 < w) :
    diffMap img img = List.replicate img.length (List.replicate w 0) := by
  unfold diffMap resizedControl
  have hwidth : imgWidth img = w := by
    unfold imgWidth
    cases img with
    | nil => simp at hh
    | cons r rest =>
      simp only [List.headD_cons]
      exact hrect r (List.mem_cons_self r rest)
  rw [hwidth, resizeImg_self img w hrect hh hw]
  unfold absdiffImage zipPix
  have hg : ∀ r ∈ grayscaleImage img,
      List.zipWith absdiffPix r r = List.replicate w 0 := by
    intro r hr
    unfold grayscaleImage at hr
    obtain ⟨s, hs, hmap⟩ := List.mem_map.mp hr
    have hlen : r.length = w := by
      rw [← hmap, List.length_map]
      exact hrect s hs
    rw [zipWith_self_eq_replicate absdiffPix 0 r
      (fun a _ => by simp [absdiffPix]), hlen]
  rw [zipWith_self_eq_replicate (List.zipWith absdiffPix)
    (List.replicate w 0) (grayscaleImage img) hg]
  unfold grayscaleImage
  rw [List.length_map]

/-- Claim C3: when the same (well-formed, nonempty) image is used as both
subject and control, the pipeline first resamples the control to the
subject's dimensions (making it equal to the subject), the per-pixel
absolute difference map is all zeros, and the contour set returned by
`findcontours` is empty for every threshold in the valid range 3..190.  The
two hypotheses on the abstracted primitives are documented facts of the
OpenCV functions they stand for: a Gaussian blur of an all-zero image is
all-zero (a normalised convolution of zeros), and `cv2.findContours` of an
image with no foreground pixel finds no contours. -/
theorem identical_images_zero_diff_no_contours (P : CVPrims)
    (img : ColorImage) (w t k : Nat) (hrect : Rectangular img w)
    (hh : 0 < img.length) (hw : 0 < w) (ht3 : 3 ≤ t) (ht190 : t ≤ 190)
    (hblur : P.blur (List.replicate img.length (List.replicate w 0)) =
      List.replicate img.length (List.replicate w 0))
    (hfc : P.findContoursExt (List.replicate img.length
      (List.replicate w 0)) = []) :
    resizedControl img img = img ∧
    diffMap img img = List.replicate img.length (List.replicate w 0) ∧
    (findcontours P img img t k).2 = [] := by
  have hwidth : imgWidth img = w := by
    unfold imgWidth
    cases img with
    | nil => simp at hh
    | cons r rest =>
      simp only [List.headD_cons]
      exact hrect r (List.mem_cons_self r rest)
  have hres : resizedControl img img = img := by
    unfold resizedControl
    rw [hwidth]
    exact resizeImg_self img w hrect hh hw
  have hdiff : diffMap img img =
      List.replicate img.length (List.replicate w 0) :=
    diffMap_self img w hrect hh hw
  refine ⟨hres, hdiff, ?_⟩
  show contoursOf P img img t = []
  unfold contoursOf segMask
  rw [hdiff, hblur]
  have hthresh : thresholdBinary t
      (List.replicate img.length (List.replicate w 0)) =
      List.replicate img.length (List.replicate w 0) := by
    unfold thresholdBinary
    rw [List.map_replicate, List.map_replicate]
    have h0 : (if t < 0 then 255 else 0) = 0 := by simp
    rw [h0]
  rw [hthresh, hfc]

/-- Witness for C3 at a concrete 1x1 image and threshold 50, with the
trivial primitives (identity blur, contour finder returning nothing). -/
theorem identical_images_zero_diff_no_contours_witness :
    resizedControl [[(7, 8, 9)]] [[(7, 8, 9)]] = [[(7, 8, 9)]] ∧
    diffMap [[(7, 8, 9)]] [[(7, 8, 9)]] =
      List.replicate 1 (List.replicate 1 0) ∧
    (findcontours idPrims [[(7, 8, 9)]] [[(7, 8, 9)]] 50 10).2 = [] :=
  identical_images_zero_diff_no_contours idPrims [[(7, 8, 9)]] 1 50 10
    (by intro r hr; simp at hr; simp [hr]) (by decide) (by decide)
    (by decide) (by decide) rfl rfl

theorem getD_of_len_le (l : List α) (d : α) (i : Nat) (h : l.length ≤ i) :
    l.getD i d = d := by
  induction l generalizing i with
  | nil => simp
  | cons a l ih =>
    cases i with
    | zero => simp at h
    | succ i =>
      simp only [List.getD_cons_succ]
      exact ih i (by simpa using h)

theorem rect_getD_len_eq (a : List (List α)) (b : List (List β)) (w : Nat)
    (ha : Rectangular a w) (hb : Rectangular b w) (hlen : a.length = b.length)
    (y : Nat) : (a.getD y []).length = (b.getD y []).length := by
  rcases lt_or_le y a.length with hy | hy
  · rw [ha (a.getD y []) (getD_mem a [] y hy),
      hb (b.getD y []) (getD_mem b [] y (hlen ▸ hy))]
  · rw [getD_of_len_le a [] y hy, getD_of_len_le b [] y (hlen ▸ hy)]
    simp

theorem pixAt_mem (img : List (List α)) (y x : Nat) (d : α)
    (hy : y < img.length) (hx : x < (img.getD y []).length) :
    pixAt img y x d ∈ img.getD y [] :=
  getD_mem (img.getD y []) d x hx

theorem resultGray_pixAt (original mask : ColorImage) (w : Nat)
    (hro : Rectangular original w) (hrm : Rectangular mask w)
    (hlen : original.length = mask.length) (y x : Nat) :
    pixAt (resultGray original mask) y x 0 =
      grayPix (landPix (pixAt original y x (0, 0, 0))
        (pixAt mask y x (0, 0, 0))) := by
  have hd : grayPix (0, 0, 0) = 0 := by decide
  have hzz : landPix (0, 0, 0) (0, 0, 0) = (0, 0, 0) := by decide
  calc pixAt (resultGray original mask) y x 0
      = pixAt (resultGray original mask) y x (grayPix (0, 0, 0)) := by
        rw [hd]
    _ = grayPix (pixAt (andImage original mask) y x (0, 0, 0)) := by
        unfold resultGray grayscaleImage
        exact pixAt_map grayPix (andImage original mask) y x (0, 0, 0)
    _ = grayPix (landPix (pixAt original y x (0, 0, 0))
        (pixAt mask y x (0, 0, 0))) := by
        congr 1
        calc pixAt (andImage original mask) y x (0, 0, 0)
            = pixAt (zipPix landPix original mask) y x
                (landPix (0, 0, 0) (0, 0, 0)) := by
              unfold andImage
              rw [hzz]
          _ = landPix (pixAt original y x (0, 0, 0))
                (pixAt mask y x (0, 0, 0)) :=
              pixAt_zipPix landPix original mask (0, 0, 0) (0, 0, 0) y x hlen
                (rect_getD_len_eq original mask w hro hrm hlen y)

/-- Counterexample to claim C5: in a `findcontours` run on a 1x1 black
subject whose fill rasteriser marks the single pixel (so the fill mask is
foreground there), the code's candidate-line derivation (from `result_gray`,
the fill mask applied to the subject) produces no candidate line, while the
specification's derivation (from the fill mask alone) produces one: the
candidate lines are not determined by the fill mask alone. -/
theorem scanline_candidates_counterexample :
    lineCoordinates (resultGrayOf onePrims [[(0, 0, 0)]] [[(0, 0, 0)]] 50) ≠
      specCandidateLines (fillMaskOf onePrims [[(0, 0, 0)]] [[(0, 0, 0)]] 50)
      := by decide

/-- Claim C5 as amended: for every pixel column, the rows contributing a
point to that column's candidate line are exactly those where the contour
fill mask is foreground AND the subject image's grayscale value is nonzero
at that pixel; each column with at least one such row yields one candidate
vertical line.  (The claim's parenthetical - independence from the subject's
pixel values inside the mask - is dropped: `result_gray` is the fill mask
applied to the subject, so mask-foreground pixels whose subject grayscale
value is 0 are excluded.) -/
theorem scanline_candidates_amended (original mask : ColorImage) (w : Nat)
    (hro : Rectangular original w) (hrm : Rectangular mask w)
    (hlen : original.length = mask.length) (hb : ImageBounded original)
    (hbin : ∀ r ∈ mask, ∀ p ∈ r, p = ((0, 0, 0) : Pix) ∨
      p = ((255, 255, 255) : Pix)) :
    lineCoordinates (resultGray original mask) =
      codeCandidateLines original mask := by
  have hLen : (resultGray original mask).length = original.length := by
    unfold resultGray grayscaleImage andImage zipPix
    simp only [List.length_map, List.length_zipWith]
    omega
  have hWidth : imgWidth (resultGray original mask) = imgWidth original := by
    cases original with
    | nil =>
      cases mask with
      | nil => rfl
      | cons s srest => rfl
    | cons r rest =>
      cases mask with
      | nil => simp at hlen
      | cons s srest =>
        unfold resultGray grayscaleImage andImage zipPix imgWidth
        simp only [List.zipWith_cons_cons, List.map_cons, List.headD_cons,
          List.length_map, List.length_zipWith]
        rw [hro r (List.mem_cons_self r rest),
          hrm s (List.mem_cons_self s srest)]
        simp
  unfold lineCoordinates codeCandidateLines
  rw [hLen, hWidth]
  apply List.filterMap_congr
  intro x hx
  have hxw : x < w := by
    have hxlt := List.mem_range.mp hx
    cases original with
    | nil => simp [imgWidth] at hxlt
    | cons r rest =>
      have hww : imgWidth (r :: rest) = w := by
        unfold imgWidth
        simp only [List.headD_cons]
        exact hro r (List.mem_cons_self r rest)
      omega
  have hys : (List.range original.length).filter
      (fun y => decide (0 < pixAt (resultGray original mask) y x 0)) =
      (List.range original.length).filter (fun y =>
        decide (pixAt mask y x (0, 0, 0) = ((255, 255, 255) : Pix) ∧
          0 < grayPix (pixAt original y x (0, 0, 0)))) := by
    apply List.filter_congr
    intro y hy
    have hylt : y < original.length := List.mem_range.mp hy
    have hylt2 : y < mask.length := by omega
    have hmx : x < (mask.getD y []).length := by
      rw [hrm (mask.getD y []) (getD_mem mask [] y hylt2)]
      exact hxw
    have hox : x < (original.getD y []).length := by
      rw [hro (original.getD y []) (getD_mem original [] y hylt)]
      exact hxw
    have hmaskpix := hbin (mask.getD y []) (getD_mem mask [] y hylt2)
      (pixAt mask y x (0, 0, 0)) (pixAt_mem mask y x (0, 0, 0) hylt2 hmx)
    have hopix := hb (original.getD y []) (getD_mem original [] y hylt)
      (pixAt original y x (0, 0, 0)) (pixAt_mem original y x (0, 0, 0)
        hylt hox)
    rw [resultGray_pixAt original mask w hro hrm hlen y x]
    rcases hmaskpix with hblack | hwhite
    · rw [hblack, landPix_black, grayPix_black]
      have h1 : (decide ((0 : Nat) < 0)) = false := by decide
      have h2 : ¬ ((((0, 0, 0) : Pix) = ((255, 255, 255) : Pix)) ∧
          0 < grayPix (pixAt original y x (0, 0, 0))) :=
        fun hc => absurd hc.1 (by decide)
      rw [h1]
      exact (decide_eq_false h2).symm
    · rw [hwhite, landPix_white (pixAt original y x (0, 0, 0)) hopix.1
        hopix.2.1 hopix.2.2]
      simp
  rw [hys]

/-- Witness for the amended C5 on a concrete one-row, two-column image under
an all-white fill mask: the bright column keeps its candidate line, the
black column is dropped. -/
theorem scanline_candidates_amended_witness :
    lineCoordinates (resultGray [[(200, 200, 200), (0, 0, 0)]]
        [[(255, 255, 255), (255, 255, 255)]]) =
      codeCandidateLines [[(200, 200, 200), (0, 0, 0)]]
        [[(255, 255, 255), (255, 255, 255)]] :=
  scanline_candidates_amended [[(200, 200, 200), (0, 0, 0)]]
    [[(255, 255, 255), (255, 255, 255)]] 2
    (by unfold Rectangular; decide) (by unfold Rectangular; decide) rfl
    (by unfold ImageBounded; decide) (by decide)

theorem zeroImageLike_pixAt (image : ColorImage) (y x : Nat) :
    pixAt (zeroImageLike image) y x (0, 0, 0) = (0, 0, 0) :=
  pixAt_map (fun _ => ((0, 0, 0) : Pix)) image y x (0, 0, 0)

theorem map_map_rect (f : α → β) (img : List (List α)) (w : Nat)
    (h : Rectangular img w) :
    Rectangular (img.map (fun r => r.map f)) w := by
  intro r hr
  obtain ⟨s, hs, hmap⟩ := List.mem_map.mp hr
  rw [← hmap, List.length_map]
  exact h s hs

theorem zipPix_rect (f : α → β → γ) :
    ∀ (a : List (List α)) (b : List (List β)) (w : Nat),
      Rectangular a w → Rectangular b w → Rectangular (zipPix f a b) w := by
  intro a
  induction a with
  | nil => intro b w ha hb r hr; simp [zipPix] at hr
  | cons r arest ih =>
    intro b w ha hb u hu
    cases b with
    | nil => simp [zipPix] at hu
    | cons s brest =>
      simp only [zipPix, List.zipWith_cons_cons, List.mem_cons] at hu
      rcases hu with hu | hu
      · rw [hu, List.length_zipWith, ha r (List.mem_cons_self r arest),
          hb s (List.mem_cons_self s brest)]
        simp
      · exact ih brest w (fun v hv => ha v (List.mem_cons_of_mem r hv))
          (fun v hv => hb v (List.mem_cons_of_mem s hv)) u hu

theorem exportMask_pixAt (P : CVPrims) (image : ColorImage)
    (cs : List Contour) (w : Nat) (hrect : Rectangular image w)
    (y x : Nat) (hy : y < image.length) (hx : x < w) :
    pixAt (exportMask P image cs) y x (0, 0, 0) =
      if (x, y) ∈ P.fillPix cs then ((255, 255, 255) : Pix) else (0, 0, 0)
      := by
  unfold exportMask
  have hzl : (zeroImageLike image).length = image.length := by
    unfold zeroImageLike
    exact List.length_map image _
  have hzr : Rectangular (zeroImageLike image) w := map_map_rect _ image w hrect
  rw [overlayImage_pixAt (P.fillPix cs) (255, 255, 255) (zeroImageLike image)
    y x (0, 0, 0) (by omega) (by
      rw [hzr ((zeroImageLike image).getD y []) (getD_mem _ [] y (by omega))]
      exact hx)]
  rw [zeroImageLike_pixAt image y x]

/-- Claim C6: the RGBA image constructed by the module-level
`save_selected_contours` has, at every in-bounds pixel, alpha 255 where the
contour fill mask is foreground with its B, G, R channels equal to the
subject image's channel values there, and alpha 0 (in fact an all-zero,
fully-transparent pixel) everywhere else; foreground of the fill mask is
exactly the rasterised fill-pixel set. -/
theorem export_rgba_spec (P : CVPrims) (image : ColorImage)
    (cs : List Contour) (w : Nat) (hrect : Rectangular image w)
    (hb : ImageBounded image) (y x : Nat) (hy : y < image.length)
    (hx : x < w) :
    pixAt (save_selected_contours P image cs) y x (0, 0, 0, 0) =
      (if pixAt (exportMask P image cs) y x (0, 0, 0) =
          ((255, 255, 255) : Pix)
       then ((pixAt image y x (0, 0, 0)).1, (pixAt image y x (0, 0, 0)).2.1,
         (pixAt image y x (0, 0, 0)).2.2, 255)
       else ((0 : Nat), (0 : Nat), (0 : Nat), (0 : Nat))) ∧
    (pixAt (exportMask P image cs) y x (0, 0, 0) = ((255, 255, 255) : Pix) ↔
      (x, y) ∈ P.fillPix cs) := by
  have hmask := exportMask_pixAt P image cs w hrect y x hy hx
  have hmrect : Rectangular (exportMask P image cs) w := by
    unfold exportMask
    exact overlayImage_rect _ _ _ w (map_map_rect _ image w hrect)
  have hmlen : (exportMask P image cs).length = image.length := by
    unfold exportMask
    rw [overlayImage_length]
    unfold zeroImageLike
    exact List.length_map image _
  have hreslen : (andImage image (exportMask P image cs)).length =
      image.length := by
    unfold andImage zipPix
    rw [List.length_zipWith, hmlen]
    simp
  have hresrect : Rectangular (andImage image (exportMask P image cs)) w :=
    zipPix_rect landPix image (exportMask P image cs) w hrect hmrect
  have halrect : Rectangular (grayscaleImage (exportMask P image cs)) w :=
    map_map_rect grayPix (exportMask P image cs) w hmrect
  have hallen : (grayscaleImage (exportMask P image cs)).length =
      image.length := by
    unfold grayscaleImage
    rw [List.length_map, hmlen]
  have hpix : pixAt (save_selected_contours P image cs) y x (0, 0, 0, 0) =
      ((pixAt (andImage image (exportMask P image cs)) y x (0, 0, 0)).1,
       (pixAt (andImage image (exportMask P image cs)) y x (0, 0, 0)).2.1,
       (pixAt (andImage image (exportMask P image cs)) y x (0, 0, 0)).2.2,
       pixAt (grayscaleImage (exportMask P image cs)) y x 0) := by
    unfold save_selected_contours mergeBGRA
    exact pixAt_zipPix (fun (p : Pix) (a : Nat) =>
        ((p.1, p.2.1, p.2.2, a) : Pix4))
      (andImage image (exportMask P image cs))
      (grayscaleImage (exportMask P image cs)) (0, 0, 0) 0 y x
      (by rw [hreslen, hallen])
      (rect_getD_len_eq _ _ w hresrect halrect (by rw [hreslen, hallen]) y)
  have hand : pixAt (andImage image (exportMask P image cs)) y x (0, 0, 0) =
      landPix (pixAt image y x (0, 0, 0))
        (pixAt (exportMask P image cs) y x (0, 0, 0)) := by
    have hzz : landPix (0, 0, 0) (0, 0, 0) = (0, 0, 0) := by decide
    calc pixAt (andImage image (exportMask P image cs)) y x (0, 0, 0)
        = pixAt (zipPix landPix image (exportMask P image cs)) y x
            (landPix (0, 0, 0) (0, 0, 0)) := by
          unfold andImage
          rw [hzz]
      _ = landPix (pixAt image y x (0, 0, 0))
            (pixAt (exportMask P image cs) y x (0, 0, 0)) :=
          pixAt_zipPix landPix image (exportMask P image cs) (0, 0, 0)
            (0, 0, 0) y x (by rw [hmlen])
            (rect_getD_len_eq _ _ w hrect hmrect (by rw [hmlen]) y)
  have halpha : pixAt (grayscaleImage (exportMask P image cs)) y x 0 =
      grayPix (pixAt (exportMask P image cs) y x (0, 0, 0)) := by
    have hd : grayPix (0, 0, 0) = 0 := by decide
    calc pixAt (grayscaleImage (exportMask P image cs)) y x 0
        = pixAt (grayscaleImage (exportMask P image cs)) y x
            (grayPix (0, 0, 0)) := by rw [hd]
      _ = grayPix (pixAt (exportMask P image cs) y x (0, 0, 0)) := by
          unfold grayscaleImage
          exact pixAt_map grayPix (exportMask P image cs) y x (0, 0, 0)
  have hpb := hb (image.getD y []) (getD_mem image [] y hy)
    (pixAt image y x (0, 0, 0)) (pixAt_mem image y x (0, 0, 0) hy (by
      rw [hrect (image.getD y []) (getD_mem image [] y hy)]
      exact hx))
  by_cases hmem : (x, y) ∈ P.fillPix cs
  · have hwhite : pixAt (exportMask P image cs) y x (0, 0, 0) =
        ((255, 255, 255) : Pix) := by rw [hmask, if_pos hmem]
    constructor
    · rw [hpix, hand, halpha, if_pos hwhite, hwhite,
        landPix_white (pixAt image y x (0, 0, 0)) hpb.1 hpb.2.1 hpb.2.2,
        grayPix_white]
    · exact ⟨fun _ => hmem, fun _ => hwhite⟩
  · have hblackpix : pixAt (exportMask P image cs) y x (0, 0, 0) =
        ((0, 0, 0) : Pix) := by rw [hmask, if_neg hmem]
    have hnw : ¬ (pixAt (exportMask P image cs) y x (0, 0, 0) =
        ((255, 255, 255) : Pix)) := by
      rw [hblackpix]
      decide
    constructor
    · rw [hpix, hand, halpha, if_neg hnw, hblackpix, landPix_black,
        grayPix_black]
    · exact ⟨fun h => absurd h hnw, fun h => absurd h hmem⟩

/-- Witness for C6: a 1x1 image whose single pixel is covered by the fill
rasteriser keeps its BGR values with alpha 255. -/
theorem export_rgba_spec_witness :
    pixAt (save_selected_contours onePrims [[(1, 2, 3)]] []) 0 0
        (0, 0, 0, 0) =
      (if pixAt (exportMask onePrims [[(1, 2, 3)]] []) 0 0 (0, 0, 0) =
          ((255, 255, 255) : Pix)
       then ((pixAt [[((1, 2, 3) : Pix)]] 0 0 (0, 0, 0)).1,
         (pixAt [[((1, 2, 3) : Pix)]] 0 0 (0, 0, 0)).2.1,
         (pixAt [[((1, 2, 3) : Pix)]] 0 0 (0, 0, 0)).2.2, 255)
       else ((0 : Nat), (0 : Nat), (0 : Nat), (0 : Nat))) ∧
    (pixAt (exportMask onePrims [[(1, 2, 3)]] []) 0 0 (0, 0, 0) =
        ((255, 255, 255) : Pix) ↔
      ((0, 0) : Pt) ∈ onePrims.fillPix []) :=
  export_rgba_spec onePrims [[(1, 2, 3)]] [] 1
    (by unfold Rectangular; decide) (by unfold ImageBounded; decide) 0 0
    (by decide) (by decide)

theorem overlayRow_nil (c : Pix) (y : Nat) :
    ∀ (x0 : Nat) (row : List Pix), overlayRow [] c y x0 row = row := by
  intro x0 row
  induction row generalizing x0 with
  | nil => rfl
  | cons p rest ih => simp [overlayRow, ih]

theorem overlayImage_nil (c : Pix) (img : ColorImage) :
    overlayImage [] c img = img := by
  unfold overlayImage
  generalize 0 = y0
  induction img generalizing y0 with
  | nil => rfl
  | cons row rest ih => simp [overlayFrom, overlayRow_nil, ih]

/-- Counterexample to claim C7: the export path does not fail and does
produce an output when the supplied contour set is empty.  At a concrete 1x1
image and `contours = []` (a non-null empty contour set), the app-level
handler proceeds past its `None` guard, the module-level exporter runs, and
an RGBA image is written (`some` output, not the claimed absence of an
output file; no error of any kind is raised on this path in the code). -/
theorem export_empty_contours_counterexample :
    app_save_selected_contours idPrims (some [[(5, 6, 7)]]) (some []) ≠
      none := by decide

/-- Claim C7 as amended: if the contour set is null (`None`), the app-level
handler returns silently and produces no output file (and raises no error,
rather than the claimed `ExportError`); if the contour set is empty but
non-null, the export proceeds and produces an RGBA output image that is
fully transparent (alpha 0 at every pixel).  The hypothesis that the fill
rasteriser paints nothing for an empty contour list is the documented
behaviour of `cv2.drawContours` on an empty sequence. -/
theorem export_empty_contours_amended (P : CVPrims) (img : ColorImage)
    (hfill : P.fillPix [] = []) :
    app_save_selected_contours P (some img) none = none ∧
    (∀ y x, (pixAt (save_selected_contours P img []) y x (0, 0, 0, 0)).2.2.2
      = 0) := by
  constructor
  · rfl
  · intro y x
    have hmask : exportMask P img [] = zeroImageLike img := by
      unfold exportMask
      rw [hfill, overlayImage_nil]
    have hallen : (grayscaleImage (exportMask P img [])).length =
        (andImage img (exportMask P img [])).length := by
      rw [hmask]
      unfold grayscaleImage zeroImageLike andImage zipPix
      simp only [List.length_map, List.length_zipWith]
      simp
    have hrowlen : ∀ i,
        ((andImage img (exportMask P img [])).getD i []).length =
        ((grayscaleImage (exportMask P img [])).getD i []).length := by
      intro i
      rcases lt_or_le i img.length with hi | hi
      · have h1 : (andImage img (exportMask P img [])).getD i [] =
            List.zipWith landPix (img.getD i [])
              ((exportMask P img []).getD i []) := by
          unfold andImage zipPix
          have h0 := getD_zipWith (List.zipWith landPix) img
            (exportMask P img []) [] [] i (by
              rw [hmask]
              unfold zeroImageLike
              simp)
          simpa using h0
        have h2 : (grayscaleImage (exportMask P img [])).getD i [] =
            ((exportMask P img []).getD i []).map grayPix := by
          unfold grayscaleImage
          have h0 := getD_map (fun r => r.map grayPix)
            (exportMask P img []) [] i
          simpa using h0
        have h3 : (exportMask P img []).getD i [] =
            (img.getD i []).map (fun _ => ((0, 0, 0) : Pix)) := by
          rw [hmask]
          unfold zeroImageLike
          have h0 := getD_map (fun r => r.map (fun _ => ((0, 0, 0) : Pix)))
            img [] i
          simpa using h0
        rw [h1, h2, h3]
        simp
      · rw [getD_of_len_le _ [] i (by
            unfold andImage zipPix
            rw [List.length_zipWith]
            omega),
          getD_of_len_le _ [] i (by
            rw [hmask]
            unfold grayscaleImage zeroImageLike
            simp only [List.length_map]
            omega)]
        simp
    have hpix : pixAt (save_selected_contours P img []) y x (0, 0, 0, 0) =
        ((pixAt (andImage img (exportMask P img [])) y x (0, 0, 0)).1,
         (pixAt (andImage img (exportMask P img [])) y x (0, 0, 0)).2.1,
         (pixAt (andImage img (exportMask P img [])) y x (0, 0, 0)).2.2,
         pixAt (grayscaleImage (exportMask P img [])) y x 0) := by
      unfold save_selected_contours mergeBGRA
      exact pixAt_zipPix (fun (p : Pix) (a : Nat) =>
          ((p.1, p.2.1, p.2.2, a) : Pix4))
        (andImage img (exportMask P img []))
        (grayscaleImage (exportMask P img [])) (0, 0, 0) 0 y x
        hallen.symm (hrowlen y)
    have halpha : pixAt (grayscaleImage (exportMask P img [])) y x 0 = 0 := by
      have hd : grayPix (0, 0, 0) = 0 := by decide
      calc pixAt (grayscaleImage (exportMask P img [])) y x 0
          = pixAt (grayscaleImage (exportMask P img [])) y x
              (grayPix (0, 0, 0)) := by rw [hd]
        _ = grayPix (pixAt (exportMask P img []) y x (0, 0, 0)) := by
            unfold grayscaleImage
            exact pixAt_map grayPix (exportMask P img []) y x (0, 0, 0)
        _ = 0 := by
            rw [hmask, zeroImageLike_pixAt]
            exact hd
    rw [hpix, halpha]

/-- Witness for the amended C7 at a concrete 1x1 image: null contours give
no output, empty contours give a pixel with alpha 0. -/
theorem export_empty_contours_amended_witness :
    app_save_selected_contours idPrims (some [[(5, 6, 7)]]) none = none ∧
    (pixAt (save_selected_contours idPrims [[(5, 6, 7)]] []) 0 0
      (0, 0, 0, 0)).2.2.2 = 0 :=
  ⟨(export_empty_contours_amended idPrims [[(5, 6, 7)]] rfl).1,
   (export_empty_contours_amended idPrims [[(5, 6, 7)]] rfl).2 0 0⟩

theorem row3_take (r s u : List α) (w : Nat) (hr : r.length = w) :
    ((r ++ s) ++ u).take w = r := by
  rw [List.append_assoc]
  exact List.take_left' hr

theorem row3_mid (r s u : List α) (w : Nat) (hr : r.length = w)
    (hs : s.length = w) : (((r ++ s) ++ u).drop w).take w = s := by
  rw [List.append_assoc, List.drop_left' hr]
  exact List.take_left' hs

theorem row3_right (r s u : List α) (w : Nat) (hr : r.length = w)
    (hs : s.length = w) : ((r ++ s) ++ u).drop (2 * w) = u := by
  apply List.drop_left'
  rw [List.length_append, hr, hs]
  omega

theorem hstack3_map_take (w : Nat) :
    ∀ (a b c : List (List α)), Rectangular a w → a.length = b.length →
      a.length = c.length →
      (hstack3 a b c).map (fun r => r.take w) = a := by
  intro a
  induction a with
  | nil => intro b c _ _ _; simp [hstack3]
  | cons r as ih =>
    intro b c ha h1 h2
    cases b with
    | nil => simp at h1
    | cons s bs =>
      cases c with
      | nil => simp at h2
      | cons u cs =>
        show (((r ++ s) ++ u).take w) :: (hstack3 as bs cs).map
          (fun v => v.take w) = r :: as
        rw [row3_take r s u w (ha r (List.mem_cons_self r as))]
        rw [ih bs cs (fun v hv => ha v (List.mem_cons_of_mem r hv))
          (by simpa using h1) (by simpa using h2)]

theorem hstack3_map_mid (w : Nat) :
    ∀ (a b c : List (List α)), Rectangular a w → Rectangular b w →
      a.length = b.length → a.length = c.length →
      (hstack3 a b c).map (fun r => (r.drop w).take w) = b := by
  intro a
  induction a with
  | nil =>
    intro b c _ _ h1 _
    cases b with
    | nil => simp [hstack3]
    | cons s bs => simp at h1
  | cons r as ih =>
    intro b c ha hb h1 h2
    cases b with
    | nil => simp at h1
    | cons s bs =>
      cases c with
      | nil => simp at h2
      | cons u cs =>
        show ((((r ++ s) ++ u).drop w).take w) :: (hstack3 as bs cs).map
          (fun v => (v.drop w).take w) = s :: bs
        rw [row3_mid r s u w (ha r (List.mem_cons_self r as))
          (hb s (List.mem_cons_self s bs))]
        rw [ih bs cs (fun v hv => ha v (List.mem_cons_of_mem r hv))
          (fun v hv => hb v (List.mem_cons_of_mem s hv))
          (by simpa using h1) (by simpa using h2)]

theorem hstack3_map_right (w : Nat) :
    ∀ (a b c : List (List α)), Rectangular a w → Rectangular b w →
      a.length = b.length → a.length = c.length →
      (hstack3 a b c).map (fun r => r.drop (2 * w)) = c := by
  intro a
  induction a with
  | nil =>
    intro b c _ _ _ h2
    cases c with
    | nil => simp [hstack3]
    | cons u cs => simp at h2
  | cons r as ih =>
    intro b c ha hb h1 h2
    cases b with
    | nil => simp at h1
    | cons s bs =>
      cases c with
      | nil => simp at h2
      | cons u cs =>
        show (((r ++ s) ++ u).drop (2 * w)) :: (hstack3 as bs cs).map
          (fun v => v.drop (2 * w)) = u :: cs
        rw [row3_right r s u w (ha r (List.mem_cons_self r as))
          (hb s (List.mem_cons_self s bs))]
        rw [ih bs cs (fun v hv => ha v (List.mem_cons_of_mem r hv))
          (fun v hv => hb v (List.mem_cons_of_mem s hv))
          (by simpa using h1) (by simpa using h2)]

theorem hstack3_rowlen (w : Nat) :
    ∀ (a b c : List (List α)), Rectangular a w → Rectangular b w →
      Rectangular c w → ∀ r ∈ hstack3 a b c, r.length = 3 * w := by
  intro a
  induction a with
  | nil => intro b c _ _ _ r hr; simp [hstack3] at hr
  | cons x as ih =>
    intro b c ha hb hc r hr
    cases b with
    | nil => simp [hstack3] at hr
    | cons s bs =>
      cases c with
      | nil => simp [hstack3] at hr
      | cons u cs =>
        have hr2 : r = (x ++ s) ++ u ∨ r ∈ hstack3 as bs cs := by
          simpa [hstack3] using hr
        rcases hr2 with hr2 | hr2
        · rw [hr2]
          simp only [List.length_append]
          rw [ha x (List.mem_cons_self x as), hb s (List.mem_cons_self s bs),
            hc u (List.mem_cons_self u cs)]
          omega
        · exact ih bs cs (fun v hv => ha v (List.mem_cons_of_mem x hv))
            (fun v hv => hb v (List.mem_cons_of_mem s hv))
            (fun v hv => hc v (List.mem_cons_of_mem u hv)) r hr2

theorem hstack3_length (a b c : List (List α)) (h1 : a.length = b.length)
    (h2 : a.length = c.length) : (hstack3 a b c).length = a.length := by
  unfold hstack3
  rw [List.length_zipWith, List.length_zipWith]
  omega

theorem contouredOf_rect (P : CVPrims) (image1 image2 : ColorImage)
    (t w : Nat) (h : Rectangular image1 w) :
    Rectangular (contouredOf P image1 image2 t) w :=
  overlayImage_rect _ _ _ w h

theorem contouredOf_length (P : CVPrims) (image1 image2 : ColorImage)
    (t : Nat) : (contouredOf P image1 image2 t).length = image1.length :=
  overlayImage_length _ _ _

theorem linedOf_rect (P : CVPrims) (image1 image2 : ColorImage)
    (t k w : Nat) (h : Rectangular image1 w) :
    Rectangular (linedOf P image1 image2 t k) w := by
  unfold linedOf
  cases hemp : (scanLinesOf P image1 image2 t k).isEmpty
  · simp only [hemp, Bool.false_eq_true, if_false]
    exact overlayImage_rect _ _ _ w (contouredOf_rect P image1 image2 t w h)
  · simp only [hemp, if_true]
    exact contouredOf_rect P image1 image2 t w h

theorem linedOf_length (P : CVPrims) (image1 image2 : ColorImage)
    (t k : Nat) : (linedOf P image1 image2 t k).length = image1.length := by
  unfold linedOf
  cases hemp : (scanLinesOf P image1 image2 t k).isEmpty
  · simp only [hemp, Bool.false_eq_true, if_false]
    rw [overlayImage_length]
    exact contouredOf_length P image1 image2 t
  · simp only [hemp, if_true]
    exact contouredOf_length P image1 image2 t

/-- Claim C4: the composite returned by `findcontours` is the horizontal
concatenation of exactly three panels, each with the subject image's height
and width (so each row has length three times the subject's width): columns
0..w-1 are exactly the unmodified subject image, columns w..2w-1 are exactly
the subject with the external contour outlines drawn in black
(`contouredOf`), and columns 2w..3w-1 are exactly that panel with the
subsampled scan lines additionally drawn in white (`linedOf`). -/
theorem composite_three_panels (P : CVPrims) (image1 image2 : ColorImage)
    (t k w : Nat) (hrect : Rectangular image1 w) :
    (findcontours P image1 image2 t k).1.length = image1.length ∧
    (∀ r ∈ (findcontours P image1 image2 t k).1, r.length = 3 * w) ∧
    (findcontours P image1 image2 t k).1.map (fun r => r.take w) = image1 ∧
    (findcontours P image1 image2 t k).1.map (fun r => (r.drop w).take w) =
      contouredOf P image1 image2 t ∧
    (findcontours P image1 image2 t k).1.map (fun r => r.drop (2 * w)) =
      linedOf P image1 image2 t k := by
  have hc_rect := contouredOf_rect P image1 image2 t w hrect
  have hc_len := contouredOf_length P image1 image2 t
  have hl_rect := linedOf_rect P image1 image2 t k w hrect
  have hl_len := linedOf_length P image1 image2 t k
  refine ⟨?_, ?_, ?_, ?_, ?_⟩
  · exact hstack3_length image1 (contouredOf P image1 image2 t)
      (linedOf P image1 image2 t k) hc_len.symm hl_len.symm
  · exact hstack3_rowlen w image1 (contouredOf P image1 image2 t)
      (linedOf P image1 image2 t k) hrect hc_rect hl_rect
  · exact hstack3_map_take w image1 (contouredOf P image1 image2 t)
      (linedOf P image1 image2 t k) hrect hc_len.symm hl_len.symm
  · exact hstack3_map_mid w image1 (contouredOf P image1 image2 t)
      (linedOf P image1 image2 t k) hrect hc_rect hc_len.symm hl_len.symm
  · exact hstack3_map_right w image1 (contouredOf P image1 image2 t)
      (linedOf P image1 image2 t k) hrect hc_rect hc_len.symm hl_len.symm

/-- Witness for C4 at a concrete 1x1 run. -/
theorem composite_three_panels_witness :
    (findcontours onePrims [[(9, 9, 9)]] [[(9, 9, 9)]] 50 1).1.length =
      ([[((9, 9, 9) : Pix)]] : ColorImage).length ∧
    (∀ r ∈ (findcontours onePrims [[(9, 9, 9)]] [[(9, 9, 9)]] 50 1).1,
      r.length = 3 * 1) ∧
    (findcontours onePrims [[(9, 9, 9)]] [[(9, 9, 9)]] 50 1).1.map
      (fun r => r.take 1) = [[((9, 9, 9) : Pix)]] ∧
    (findcontours onePrims [[(9, 9, 9)]] [[(9, 9, 9)]] 50 1).1.map
      (fun r => (r.drop 1).take 1) =
      contouredOf onePrims [[(9, 9, 9)]] [[(9, 9, 9)]] 50 ∧
    (findcontours onePrims [[(9, 9, 9)]] [[(9, 9, 9)]] 50 1).1.map
      (fun r => r.drop (2 * 1)) =
      linedOf onePrims [[(9, 9, 9)]] [[(9, 9, 9)]] 50 1 :=
  composite_three_panels onePrims [[(9, 9, 9)]] [[(9, 9, 9)]] 50 1 1
    (by unfold Rectangular; decide)
